import Mathlib

/-!
# Verification of the `usid` crate (`src/lib.rs`)

A shallow embedding of the `USID` identifier type and its operations.

Modelling conventions:
* Bytes (`u8`) are `Nat` values; where a claim needs the `u8` range or the
  fixed length 16 of `[u8; 16]`, that appears as an explicit hypothesis.
* Rust strings (`String`/`&str`) are lists of Unicode scalar values
  (`Str := List Nat`), mirroring how Rust's `chars()`, `split`, `replace`
  and `starts_with` operate at the character level.  `as_bytes()` is the
  UTF-8 encoding `encodeStr`, and `String::from_utf8_lossy` is the lossy
  decoder `decodeLossy` (Rust's "substitution of maximal subparts").
* A Rust panic (process abort) is modelled by a dedicated result
  constructor, distinct from a recoverable `Err` value: in
  `USID::from_string` the slice expression `undashed.as_bytes()[..16]`
  panics when fewer than 16 bytes are available, while `bail!` and the
  `?` operator produce recoverable errors.
-/

/-- A Rust string, as its list of Unicode scalar values. -/
abbrev Str := List Nat

/-- Scalar values of a Lean/Rust string literal, for writing concrete inputs. -/
def strChars (s : String) : Str := s.data.map Char.toNat

/-- A Unicode scalar value (the values a Rust `char` can hold). -/
def ValidScalar (c : Nat) : Prop := c < 0x110000 ∧ (c < 0xD800 ∨ 0xE000 ≤ c)

instance (c : Nat) : Decidable (ValidScalar c) := by unfold ValidScalar; infer_instance

/-- UTF-8 encoding of one scalar value (Rust `char::encode_utf8`). -/
def encodeChar (c : Nat) : List Nat :=
  if c < 0x80 then [c]
  else if c < 0x800 then [0xC0 + c / 0x40, 0x80 + c % 0x40]
  else if c < 0x10000 then
    [0xE0 + c / 0x1000, 0x80 + (c / 0x40) % 0x40, 0x80 + c % 0x40]
  else
    [0xF0 + c / 0x40000, 0x80 + (c / 0x1000) % 0x40, 0x80 + (c / 0x40) % 0x40, 0x80 + c % 0x40]

/-- UTF-8 byte representation of a string (Rust `str::as_bytes`). -/
def encodeStr (s : Str) : List Nat := (s.map encodeChar).flatten

/-- Lossy UTF-8 decoding of a byte sequence (Rust `String::from_utf8_lossy`),
following Rust's validation automaton: each maximal invalid subpart is
replaced by one U+FFFD replacement character. -/
def decodeLossy : List Nat → Str
  | [] => []
  | b0 :: t =>
    if b0 < 0x80 then b0 :: decodeLossy t
    else if b0 < 0xC2 then 0xFFFD :: decodeLossy t
    else if b0 < 0xE0 then
      match h : t with
      | [] => [0xFFFD]
      | b1 :: t2 =>
        if 0x80 ≤ b1 ∧ b1 < 0xC0 then
          ((b0 - 0xC0) * 0x40 + (b1 - 0x80)) :: decodeLossy t2
        else 0xFFFD :: decodeLossy (b1 :: t2)
    else if b0 < 0xF0 then
      match h : t with
      | [] => [0xFFFD]
      | b1 :: t2 =>
        if (b0 = 0xE0 ∧ 0xA0 ≤ b1 ∧ b1 < 0xC0) ∨
           (0xE1 ≤ b0 ∧ b0 ≤ 0xEC ∧ 0x80 ≤ b1 ∧ b1 < 0xC0) ∨
           (b0 = 0xED ∧ 0x80 ≤ b1 ∧ b1 < 0xA0) ∨
           (0xEE ≤ b0 ∧ 0x80 ≤ b1 ∧ b1 < 0xC0) then
          match h2 : t2 with
          | [] => [0xFFFD]
          | b2 :: t3 =>
            if 0x80 ≤ b2 ∧ b2 < 0xC0 then
              ((b0 - 0xE0) * 0x1000 + (b1 - 0x80) * 0x40 + (b2 - 0x80)) :: decodeLossy t3
            else 0xFFFD :: decodeLossy (b2 :: t3)
        else 0xFFFD :: decodeLossy (b1 :: t2)
    else if b0 < 0xF5 then
      match h : t with
      | [] => [0xFFFD]
      | b1 :: t2 =>
        if (b0 = 0xF0 ∧ 0x90 ≤ b1 ∧ b1 < 0xC0) ∨
           (0xF1 ≤ b0 ∧ b0 ≤ 0xF3 ∧ 0x80 ≤ b1 ∧ b1 < 0xC0) ∨
           (b0 = 0xF4 ∧ 0x80 ≤ b1 ∧ b1 < 0x90) then
          match h2 : t2 with
          | [] => [0xFFFD]
          | b2 :: t3 =>
            if 0x80 ≤ b2 ∧ b2 < 0xC0 then
              match h3 : t3 with
              | [] => [0xFFFD]
              | b3 :: t4 =>
                if 0x80 ≤ b3 ∧ b3 < 0xC0 then
                  ((b0 - 0xF0) * 0x40000 + (b1 - 0x80) * 0x1000 +
                    (b2 - 0x80) * 0x40 + (b3 - 0x80)) :: decodeLossy t4
                else 0xFFFD :: decodeLossy (b3 :: t4)
            else 0xFFFD :: decodeLossy (b2 :: t3)
        else 0xFFFD :: decodeLossy (b1 :: t2)
    else 0xFFFD :: decodeLossy t
termination_by l => l.length
decreasing_by
  all_goals simp_all [List.length_cons]
  all_goals omega

/-- Rust `str::split(sep)`: the list of segments between occurrences of the
separator character (always at least one, possibly empty, segment). -/
def splitChar (sep : Nat) : Str → List Str
  | [] => [[]]
  | c :: rest =>
    if c = sep then [] :: splitChar sep rest
    else
      match splitChar sep rest with
      | [] => [[c]]
      | h :: t => (c :: h) :: t

/-- The `uuid::Uuid` type: a 128-bit UUID, carried as its 16 bytes. -/
structure Uuid where
  bytes : List Nat
deriving DecidableEq

/-- Rust `Uuid::into_bytes`: the UUID's 16 bytes. -/
def Uuid.into_bytes (u : Uuid) : List Nat := u.bytes

/-- Rust `Uuid::nil`: the all-zero UUID. -/
def Uuid.nil : Uuid := ⟨List.replicate 16 0⟩

/-- Rust `Uuid::from_slice`: builds a UUID from a byte slice, failing exactly
when the slice's length is not 16. -/
def Uuid.from_slice (s : List Nat) : Option Uuid :=
  if s.length = 16 then some ⟨s⟩ else none

/-- The `USID` struct of `src/lib.rs`: a tuple struct holding 16 bytes. -/
structure USID where
  bytes : List Nat
deriving DecidableEq

namespace USID

/-- `USID::new`: the all-zero identifier. -/
def new : USID := ⟨List.replicate 16 0⟩

/-- `USID::from_uuid`: copies the UUID's 16 bytes verbatim. -/
def from_uuid (uuid : Uuid) : USID := ⟨uuid.into_bytes⟩

/-- `USID::from_bytes`: copies the given 16 bytes verbatim. -/
def from_bytes (bytes : List Nat) : USID := ⟨bytes⟩

/-- Result of `USID::from_string`.  `err` models a recoverable
`anyhow::Result::Err` value; `abort` models a Rust panic (the slice
expression `undashed.as_bytes()[..16]` aborts when the slice is shorter
than 16 bytes). -/
inductive ParseResult where
  | ok (u : USID)
  | err (msg : Str)
  | abort
deriving DecidableEq

/-- `USID::from_string` (lines 24-41 of `src/lib.rs`).  If the input starts
with `usid:`, split on `:`, bail with "Invalid USID format" when fewer than
2 parts result, and take the second part as payload; otherwise the whole
input is the payload.  Remove all dashes, then take the first 16 bytes of
the payload's UTF-8 representation — the slice `[..16]` panics (`abort`)
when fewer than 16 bytes are available, so the fallible `try_into` that
follows always succeeds. -/
def from_string (s : Str) : ParseResult :=
  let dataOpt : Option Str :=
    if (strChars "usid:").isPrefixOf s then
      let parts := splitChar 58 s
      if parts.length < 2 then none
      else some parts[1]!
    else some s
  match dataOpt with
  | none => ParseResult.err (strChars "Invalid USID format")
  | some data =>
    let undashed := data.filter (fun c => c ≠ 45)
    if (encodeStr undashed).length < 16 then ParseResult.abort
    else ParseResult.ok ⟨(encodeStr undashed).take 16⟩

/-- Closure body of the `map` in `USID::as_string`: prefix the character
with a dash when its 0-based index is positive and divisible by 4. -/
def dashFun (p : Nat × Nat) : Str :=
  if p.1 > 0 ∧ p.1 % 4 = 0 then [45, p.2] else [p.2]

/-- `USID::as_string` (lines 43-56): lossy-decode the 16 raw bytes, insert a
dash before every 4th character (first group excluded), prepend `usid:`. -/
def as_string (x : USID) : Str :=
  let str := decodeLossy x.bytes
  let dashed := ((str.enum).map dashFun).flatten
  strChars "usid:" ++ dashed

/-- `USID::as_uuid` (lines 58-60): rebuild a UUID from the raw bytes and
fall back to the nil UUID if that fails. -/
def as_uuid (x : USID) : Uuid :=
  (Uuid.from_slice x.bytes).getD Uuid.nil

/-- `USID::is_empty` (lines 62-64): all 16 bytes equal zero. -/
def is_empty (x : USID) : Bool := x.bytes == List.replicate 16 0

/-- The `PartialEq` impl (lines 91-95): byte-for-byte comparison. -/
def usid_eq (a b : USID) : Bool := a.bytes == b.bytes

/-- The data the derived `Hash` impl feeds to the hasher: exactly the 16
raw bytes.  Any hasher applied to this data hashes equal USIDs equally. -/
def hashData (x : USID) : List Nat := x.bytes

/-- The `Display` impl (lines 97-101): writes `self.as_string()`. -/
def display (x : USID) : Str := as_string x

/-- The `Serialize` impl (lines 68-77, `serde` feature): serializes as the
single string `self.as_string()`. -/
def serialize (x : USID) : Str := as_string x

/-- Result of deserializing a string into a USID.  `customErr` models
`serde::de::Error::custom` wrapping the parse failure message; `abort`
propagates a panic inside `from_string`. -/
inductive DeResult where
  | ok (u : USID)
  | customErr (msg : Str)
  | abort
deriving DecidableEq

/-- The `Deserialize` impl (lines 79-89, `serde` feature): read a string,
then `USID::from_string`, mapping its error through `Error::custom`. -/
def deserialize (s : Str) : DeResult :=
  match from_string s with
  | ParseResult.ok u => DeResult.ok u
  | ParseResult.err m => DeResult.customErr m
  | ParseResult.abort => DeResult.abort

/-- Stated from the spec's words, for comparison with `as_string` in the
refinement claim C5: "decode the raw 16 bytes as UTF-8 with lossy
replacement of invalid sequences, then re-insert a `-` before every
character whose 0-based index is a positive multiple of 4, then prepend
`usid:`". -/
def spec_as_string (x : USID) : Str :=
  strChars "usid:" ++
    ((decodeLossy x.bytes).enum.map
      (fun p => if 0 < p.1 ∧ p.1 % 4 = 0 then [45, p.2] else [p.2])).flatten

end USID

/-! ## Lemmas about the UTF-8 codec -/

theorem decodeLossy_nil : decodeLossy [] = [] := by simp [decodeLossy]

theorem decodeLossy_ascii (b0 : Nat) (r : List Nat) (h : b0 < 0x80) :
    decodeLossy (b0 :: r) = b0 :: decodeLossy r := by
  rw [decodeLossy.eq_def]
  dsimp only []
  rw [if_pos h]

theorem decodeLossy_two (b0 b1 : Nat) (r : List Nat) (h0 : 0xC2 ≤ b0) (h1 : b0 < 0xE0)
    (hc : 0x80 ≤ b1 ∧ b1 < 0xC0) :
    decodeLossy (b0 :: b1 :: r) = ((b0 - 0xC0) * 0x40 + (b1 - 0x80)) :: decodeLossy r := by
  rw [decodeLossy.eq_def]
  dsimp only []
  rw [if_neg (by omega), if_neg (by omega), if_pos h1, if_pos hc]

theorem decodeLossy_three (b0 b1 b2 : Nat) (r : List Nat) (h0 : 0xE0 ≤ b0) (h1 : b0 < 0xF0)
    (hv : (b0 = 0xE0 ∧ 0xA0 ≤ b1 ∧ b1 < 0xC0) ∨
          (0xE1 ≤ b0 ∧ b0 ≤ 0xEC ∧ 0x80 ≤ b1 ∧ b1 < 0xC0) ∨
          (b0 = 0xED ∧ 0x80 ≤ b1 ∧ b1 < 0xA0) ∨
          (0xEE ≤ b0 ∧ 0x80 ≤ b1 ∧ b1 < 0xC0))
    (hc : 0x80 ≤ b2 ∧ b2 < 0xC0) :
    decodeLossy (b0 :: b1 :: b2 :: r) =
      ((b0 - 0xE0) * 0x1000 + (b1 - 0x80) * 0x40 + (b2 - 0x80)) :: decodeLossy r := by
  rw [decodeLossy.eq_def]
  dsimp only []
  rw [if_neg (by omega), if_neg (by omega), if_neg (by omega), if_pos h1, if_pos hv, if_pos hc]

theorem decodeLossy_four (b0 b1 b2 b3 : Nat) (r : List Nat) (h0 : 0xF0 ≤ b0) (h1 : b0 < 0xF5)
    (hv : (b0 = 0xF0 ∧ 0x90 ≤ b1 ∧ b1 < 0xC0) ∨
          (0xF1 ≤ b0 ∧ b0 ≤ 0xF3 ∧ 0x80 ≤ b1 ∧ b1 < 0xC0) ∨
          (b0 = 0xF4 ∧ 0x80 ≤ b1 ∧ b1 < 0x90))
    (hc2 : 0x80 ≤ b2 ∧ b2 < 0xC0) (hc3 : 0x80 ≤ b3 ∧ b3 < 0xC0) :
    decodeLossy (b0 :: b1 :: b2 :: b3 :: r) =
      ((b0 - 0xF0) * 0x40000 + (b1 - 0x80) * 0x1000 +
        (b2 - 0x80) * 0x40 + (b3 - 0x80)) :: decodeLossy r := by
  rw [decodeLossy.eq_def]
  dsimp only []
  rw [if_neg (by omega), if_neg (by omega), if_neg (by omega), if_neg (by omega), if_pos h1,
    if_pos hv, if_pos hc2, if_pos hc3]

set_option maxRecDepth 8192 in
theorem decodeLossy_encodeChar (c : Nat) (h : ValidScalar c) (r : List Nat) :
    decodeLossy (encodeChar c ++ r) = c :: decodeLossy r := by
  obtain ⟨hlt, hsur⟩ := h
  by_cases h1 : c < 0x80
  · rw [encodeChar, if_pos h1, List.cons_append, List.nil_append, decodeLossy_ascii _ _ h1]
  · by_cases h2 : c < 0x800
    · rw [encodeChar, if_neg h1, if_pos h2]
      simp only [List.cons_append, List.nil_append]
      have e2 := decodeLossy_two (0xC0 + c / 0x40) (0x80 + c % 0x40) r
        (by omega) (by omega) (by omega)
      rw [e2]
      congr 1
      omega
    · by_cases h3 : c < 0x10000
      · rw [encodeChar, if_neg h1, if_neg h2, if_pos h3]
        simp only [List.cons_append, List.nil_append]
        have e3 := decodeLossy_three (0xE0 + c / 0x1000) (0x80 + (c / 0x40) % 0x40)
          (0x80 + c % 0x40) r (by omega) (by omega) (by omega) (by omega)
        rw [e3]
        congr 1
        omega
      · rw [encodeChar, if_neg h1, if_neg h2, if_neg h3]
        simp only [List.cons_append, List.nil_append]
        have e4 := decodeLossy_four (0xF0 + c / 0x40000) (0x80 + (c / 0x1000) % 0x40)
          (0x80 + (c / 0x40) % 0x40) (0x80 + c % 0x40) r
          (by omega) (by omega) (by omega) (by omega) (by omega)
        rw [e4]
        congr 1
        omega

theorem encodeStr_nil : encodeStr [] = [] := rfl

theorem encodeStr_cons (c : Nat) (s : Str) : encodeStr (c :: s) = encodeChar c ++ encodeStr s := by
  simp [encodeStr]

theorem decodeLossy_encodeStr (s : Str) (h : ∀ c ∈ s, ValidScalar c) :
    decodeLossy (encodeStr s) = s := by
  induction s with
  | nil => simp [encodeStr_nil, decodeLossy_nil]
  | cons c cs ih =>
    rw [encodeStr_cons, decodeLossy_encodeChar c (h c (List.mem_cons_self c cs)) _,
      ih (fun d hd => h d (List.mem_cons_of_mem _ hd))]

/-! ## Lemmas about `splitChar` -/

theorem splitChar_ne_nil (sep : Nat) (l : Str) : splitChar sep l ≠ [] := by
  induction l with
  | nil => simp [splitChar]
  | cons c t ih =>
    simp only [splitChar]
    split
    · simp
    · split
      · simp
      · simp

theorem splitChar_not_mem (sep : Nat) (l : Str) (h : sep ∉ l) : splitChar sep l = [l] := by
  induction l with
  | nil => rfl
  | cons c t ih =>
    have hc : c ≠ sep := fun e => h (e ▸ List.mem_cons_self c t)
    have ht : sep ∉ t := fun m => h (List.mem_cons_of_mem _ m)
    simp only [splitChar]
    rw [if_neg hc, ih ht]

theorem splitChar_prefix_seg (sep : Nat) (p r : Str) (h : sep ∉ p) :
    splitChar sep (p ++ sep :: r) = p :: splitChar sep r := by
  induction p with
  | nil => simp [splitChar]
  | cons c t ih =>
    have hc : c ≠ sep := fun e => h (e ▸ List.mem_cons_self c t)
    have ht : sep ∉ t := fun m => h (List.mem_cons_of_mem _ m)
    simp only [List.cons_append, splitChar, List.append_eq]
    rw [if_neg hc, ih ht]

/-! ## Lemmas about the dash insertion of `as_string` -/

theorem dashFun_filter (n : Nat) (cs : Str) (h : 45 ∉ cs) :
    (((List.enumFrom n cs).map USID.dashFun).flatten).filter (fun c => c ≠ 45) = cs := by
  induction cs generalizing n with
  | nil => rfl
  | cons c t ih =>
    have hc : c ≠ 45 := fun e => h (e ▸ List.mem_cons_self c t)
    have ht : 45 ∉ t := fun m => h (List.mem_cons_of_mem _ m)
    simp only [List.enumFrom, List.map_cons, List.flatten_cons]
    rw [List.filter_append]
    have hhead : (USID.dashFun (n, c)).filter (fun y => y ≠ 45) = [c] := by
      simp only [USID.dashFun]
      split
      · simp [hc]
      · simp [hc]
    rw [hhead, ih (n + 1) ht]
    rfl

theorem dashFun_no_colon (n : Nat) (cs : Str) (h : 58 ∉ cs) :
    58 ∉ ((List.enumFrom n cs).map USID.dashFun).flatten := by
  induction cs generalizing n with
  | nil => simp
  | cons c t ih =>
    have hc : c ≠ 58 := fun e => h (e ▸ List.mem_cons_self c t)
    have ht : 58 ∉ t := fun m => h (List.mem_cons_of_mem _ m)
    simp only [List.enumFrom, List.map_cons, List.flatten_cons]
    intro hmem
    rcases List.mem_append.mp hmem with hl | hr
    · simp only [USID.dashFun] at hl
      split at hl <;> simp at hl <;> omega
    · exact ih (n + 1) ht hr

theorem enum_dashFun_filter (cs : Str) (h : 45 ∉ cs) :
    ((cs.enum.map USID.dashFun).flatten).filter (fun c => c ≠ 45) = cs :=
  dashFun_filter 0 cs h

theorem enum_dashFun_no_colon (cs : Str) (h : 58 ∉ cs) :
    58 ∉ (cs.enum.map USID.dashFun).flatten :=
  dashFun_no_colon 0 cs h

/-! ## Claim theorems -/

/-- C1: the claim states that every input whose payload, after dash
removal, has fewer than 16 UTF-8 bytes (e.g. `"short"`) makes
`from_string` return a recoverable format error and never aborts.  On the
code, the slice `undashed.as_bytes()[..16]` panics instead: at the input
`"short"` the embedded `from_string` aborts rather than returning an
error value. -/
theorem c1_short_input_aborts :
    USID.from_string (strChars "short") = USID.ParseResult.abort := by decide

/-- C2: the claim states that `from_string("usid:")` fails by returning a
format error.  On the code, `"usid:".split(':')` yields the two parts
`["usid", ""]`, so the length check passes, the payload is empty, and the
slice `[..16]` panics: the embedded `from_string` aborts rather than
returning an error value. -/
theorem c2_empty_payload_aborts :
    USID.from_string (strChars "usid:") = USID.ParseResult.abort := by decide

/-- C4: for every 16-byte UUID `u`, `from_uuid(u).as_uuid() == u`, and both
conversions are direct byte copies with no byte-order transformation. -/
theorem c4_uuid_roundtrip (u : Uuid) (h : u.bytes.length = 16) :
    (USID.from_uuid u).as_uuid = u ∧ (USID.from_uuid u).bytes = u.into_bytes := by
  refine ⟨?_, rfl⟩
  simp [USID.from_uuid, USID.as_uuid, Uuid.from_slice, Uuid.into_bytes, h]

/-- C4 witness: the round trip at the concrete UUID with bytes 0..15. -/
theorem c4_uuid_roundtrip_witness :
    (USID.from_uuid ⟨List.range 16⟩).as_uuid = ⟨List.range 16⟩ ∧
    (USID.from_uuid ⟨List.range 16⟩).bytes = Uuid.into_bytes ⟨List.range 16⟩ :=
  c4_uuid_roundtrip ⟨List.range 16⟩ (by decide)

/-- C5: `as_string` equals the spec's formula — `usid:` followed by the
lossy UTF-8 decoding of the 16 bytes with a dash inserted before every
character whose 0-based index is a positive multiple of 4 — and `Display`
produces the identical output. -/
theorem c5_as_string_formula (x : USID) :
    USID.as_string x = USID.spec_as_string x ∧ USID.display x = USID.as_string x :=
  ⟨rfl, rfl⟩

/-- C6: with the `serde` capability enabled, a USID serializes to the
single string `as_string(x)`, and deserializing a string `s` returns
exactly the outcome of `from_string(s)`: success for success, and a
deserialization error wrapping the parse failure otherwise. -/
theorem c6_serde_roundtrip :
    (∀ x : USID, USID.serialize x = USID.as_string x) ∧
    (∀ (s : Str) (u : USID),
      USID.deserialize s = USID.DeResult.ok u ↔
        USID.from_string s = USID.ParseResult.ok u) ∧
    (∀ (s : Str) (m : Str),
      USID.deserialize s = USID.DeResult.customErr m ↔
        USID.from_string s = USID.ParseResult.err m) ∧
    (∀ s : Str,
      USID.deserialize s = USID.DeResult.abort ↔
        USID.from_string s = USID.ParseResult.abort) := by
  refine ⟨fun x => rfl, fun s u => ?_, fun s m => ?_, fun s => ?_⟩ <;>
    · unfold USID.deserialize
      cases USID.from_string s <;> simp

/-- C7: `is_empty` reports true iff all 16 bytes are zero: `new()` is
empty, and any 16-byte array with a nonzero byte yields a non-empty
USID. -/
theorem c7_is_empty_iff_zero :
    USID.new.is_empty = true ∧
    (∀ x : USID, x.bytes.length = 16 → (x.is_empty = true ↔ ∀ y ∈ x.bytes, y = 0)) ∧
    (∀ b : List Nat, b.length = 16 → (∃ y ∈ b, y ≠ 0) →
      (USID.from_bytes b).is_empty = false) := by
  refine ⟨by decide, fun x hx => ?_, fun b hb hy => ?_⟩
  · rw [USID.is_empty, beq_iff_eq, List.eq_replicate_iff]
    constructor
    · exact fun ⟨_, h⟩ y m => h y m
    · exact fun h => ⟨hx, h⟩
  · rw [USID.is_empty, beq_eq_false_iff_ne]
    intro e
    have e' : b = List.replicate 16 0 := e
    obtain ⟨y, hm, hne⟩ := hy
    exact hne (List.eq_of_mem_replicate (e' ▸ hm))

/-- C7 witness: the nonzero 16-byte array `1 :: 0^15` yields a non-empty
USID. -/
theorem c7_is_empty_iff_zero_witness :
    (USID.from_bytes (1 :: List.replicate 15 0)).is_empty = false :=
  c7_is_empty_iff_zero.2.2 (1 :: List.replicate 15 0) (by decide) (by decide)

/-- C8: equality is defined solely over the raw 16 bytes — USIDs built
from byte arrays are equal iff the arrays are — and equal USIDs feed
identical data to the hasher. -/
theorem c8_eq_hash_bytes :
    (∀ a b : List Nat,
      USID.usid_eq (USID.from_bytes a) (USID.from_bytes b) = true ↔ a = b) ∧
    (∀ x y : USID, USID.usid_eq x y = true → USID.hashData x = USID.hashData y) := by
  constructor
  · intro a b
    simp [USID.usid_eq, USID.from_bytes]
  · intro x y h
    simpa [USID.usid_eq, USID.hashData] using h

/-- C8 witness: two USIDs built from the byte array 0..15 compare equal
and hash identically. -/
theorem c8_eq_hash_bytes_witness :
    USID.usid_eq (USID.from_bytes (List.range 16)) (USID.from_bytes (List.range 16)) = true ∧
    USID.hashData (USID.from_bytes (List.range 16)) =
      USID.hashData (USID.from_bytes (List.range 16)) := by
  have h := (c8_eq_hash_bytes.1 (List.range 16) (List.range 16)).mpr rfl
  exact ⟨h, c8_eq_hash_bytes.2 _ _ h⟩

/-- C9: for every USID with 16 bytes, `as_uuid` returns the UUID with
exactly those bytes, and `Uuid::from_slice` on them succeeds, so the
nil-UUID fallback is unreachable. -/
theorem c9_as_uuid_identity (x : USID) (h : x.bytes.length = 16) :
    x.as_uuid = Uuid.mk x.bytes ∧ Uuid.from_slice x.bytes = some (Uuid.mk x.bytes) := by
  constructor <;> simp [USID.as_uuid, Uuid.from_slice, h]

/-- C9 witness: `as_uuid` at the concrete USID whose 16 bytes are all 7. -/
theorem c9_as_uuid_identity_witness :
    USID.as_uuid ⟨List.replicate 16 7⟩ = Uuid.mk (List.replicate 16 7) ∧
    Uuid.from_slice (USID.mk (List.replicate 16 7)).bytes =
      some (Uuid.mk (List.replicate 16 7)) :=
  c9_as_uuid_identity ⟨List.replicate 16 7⟩ (by decide)

/-- C10: every input starting with `usid:` splits on `:` into at least two
parts, so the `parts.len() < 2` check never fires and `from_string` never
returns the "Invalid USID format" error (nor any other `Err` value). -/
theorem c10_bail_unreachable (s : Str) (h : (strChars "usid:").isPrefixOf s = true) :
    ¬(splitChar 58 s).length < 2 ∧
    ∀ m : Str, USID.from_string s ≠ USID.ParseResult.err m := by
  obtain ⟨t, ht⟩ : ∃ t, s = strChars "usid:" ++ t := by
    rw [List.isPrefixOf_iff_prefix] at h
    obtain ⟨t, ht⟩ := h
    exact ⟨t, ht.symm⟩
  have hsplit : splitChar 58 s = [117, 115, 105, 100] :: splitChar 58 t := by
    rw [ht]
    have e : strChars "usid:" ++ t = [117, 115, 105, 100] ++ 58 :: t := rfl
    rw [e, splitChar_prefix_seg 58 _ t (by decide)]
  have hpos : 0 < (splitChar 58 t).length := List.length_pos.mpr (splitChar_ne_nil 58 t)
  have hlen : 2 ≤ (splitChar 58 s).length := by
    rw [hsplit, List.length_cons]
    omega
  refine ⟨by omega, fun m hcontra => ?_⟩
  simp only [USID.from_string] at hcontra
  rw [if_pos h, if_neg (by omega : ¬(splitChar 58 s).length < 2)] at hcontra
  dsimp only [] at hcontra
  split at hcontra <;> simp_all

/-- C10 witness: the bail branch does not fire at the concrete input
`"usid:abc"`. -/
theorem c10_bail_unreachable_witness :
    ¬(splitChar 58 (strChars "usid:abc")).length < 2 ∧
    ∀ m : Str, USID.from_string (strChars "usid:abc") ≠ USID.ParseResult.err m :=
  c10_bail_unreachable (strChars "usid:abc") (by decide)

/-- C3: for every USID `x` whose 16 raw bytes are valid UTF-8 — the
encoding of a character sequence `cs` — containing no `-` and no `:`
characters, `from_string (as_string x)` succeeds and returns `x`
itself. -/
theorem c3_string_roundtrip (x : USID) (cs : Str)
    (hv : ∀ c ∈ cs, ValidScalar c) (hb : x.bytes = encodeStr cs)
    (h16 : x.bytes.length = 16) (hdash : 45 ∉ cs) (hcolon : 58 ∉ cs) :
    USID.from_string (USID.as_string x) = USID.ParseResult.ok x := by
  have hdec : decodeLossy x.bytes = cs := by rw [hb]; exact decodeLossy_encodeStr cs hv
  have hs : USID.as_string x = strChars "usid:" ++ (cs.enum.map USID.dashFun).flatten := by
    simp only [USID.as_string, hdec]
  set d : Str := (cs.enum.map USID.dashFun).flatten with hd
  have hnc : 58 ∉ d := enum_dashFun_no_colon cs hcolon
  have hpre : (strChars "usid:").isPrefixOf (strChars "usid:" ++ d) = true := by
    rw [List.isPrefixOf_iff_prefix]
    exact List.prefix_append _ _
  have hsplit : splitChar 58 (strChars "usid:" ++ d) = [[117, 115, 105, 100], d] := by
    have e : strChars "usid:" ++ d = [117, 115, 105, 100] ++ 58 :: d := rfl
    rw [e, splitChar_prefix_seg 58 _ d (by decide), splitChar_not_mem 58 d hnc]
  have hfilter : d.filter (fun c => c ≠ 45) = cs := enum_dashFun_filter cs hdash
  have hlen : (encodeStr cs).length = 16 := by rw [← hb]; exact h16
  rw [hs]
  simp only [USID.from_string]
  rw [if_pos hpre, hsplit]
  have hidx : ([[117, 115, 105, 100], d] : List Str)[1]! = d := rfl
  rw [if_neg (by simp), hidx]
  dsimp only []
  rw [hfilter, if_neg (by omega), ← hb]
  have htake : x.bytes.take 16 = x.bytes := by
    conv_lhs => rw [← h16]
    exact List.take_length x.bytes
  rw [htake]

/-- C3 witness: the round trip at the concrete USID whose bytes spell
`abcdefghijklmnop` (valid UTF-8, no dash, no colon). -/
theorem c3_string_roundtrip_witness :
    USID.from_string (USID.as_string ⟨encodeStr (strChars "abcdefghijklmnop")⟩) =
      USID.ParseResult.ok ⟨encodeStr (strChars "abcdefghijklmnop")⟩ :=
  c3_string_roundtrip ⟨encodeStr (strChars "abcdefghijklmnop")⟩
    (strChars "abcdefghijklmnop") (by decide) rfl (by decide) (by decide) (by decide)
